import Mathlib

/-!
# Verification of the actix-assign instruction/signing service

Shallow embedding of `src/main.rs`: the base58 and base64 codecs, the
address codec (`Pubkey::from_str` / `to_string`), the keypair engine,
the signing/verification engine, the instruction builders for native
and token transfers, and the request handlers
`generate_keypair`, `sign_message`, `verify_message`, `send_sol`,
`send_token`.  Bytes are `Nat` with an explicit `< 256` bound where it
matters; fallible handler code returns `Except String` carrying the
exact error strings of the source.
-/

namespace ActixAssign

/-! ## Positional numeral helpers

`beValue b L` reads a big-endian digit list in base `b` (the bignum
accumulation loop both base-58 codecs in the source use);
`natToBE b n` writes `n` back as a minimal big-endian digit list.
`natToLEFuel` is a fuel-driven, kernel-reducible little-endian writer;
the fuel `n` always suffices. -/

def beValue (b : Nat) (L : List Nat) : Nat :=
  L.foldl (fun a d => a * b + d) 0

def natToLEFuel (b : Nat) : Nat → Nat → List Nat
  | 0, _ => []
  | fuel + 1, n => if n = 0 then [] else n % b :: natToLEFuel b fuel (n / b)

def natToLE (b n : Nat) : List Nat := natToLEFuel b n n

def natToBE (b n : Nat) : List Nat := (natToLE b n).reverse

def leadingZeros : List Nat → Nat
  | 0 :: ds => leadingZeros ds + 1
  | _ => 0

/-! ## Base58 codec

Alphabet and algorithm of the `base58` crate (`FromBase58`/`ToBase58`)
and of `bs58` inside `Pubkey::from_str`: Bitcoin alphabet, leading
`'1'` characters encode leading zero bytes, the rest is one big-endian
base-58 number. -/

def base58Alphabet : List Char :=
  "123456789ABCDEFGHJKLMNPQRSTUVWXYZabcdefghijkmnopqrstuvwxyz".data

def b58CharVal (c : Char) : Option Nat :=
  if c ∈ base58Alphabet then some (base58Alphabet.indexOf c) else none

def b58ValChar (d : Nat) : Char := base58Alphabet.getD d '1'

def b58DigitVals : List Char → Option (List Nat)
  | [] => some []
  | c :: cs =>
    match b58CharVal c, b58DigitVals cs with
    | some d, some ds => some (d :: ds)
    | _, _ => none

def fromBase58Digits (ds : List Nat) : List Nat :=
  List.replicate (leadingZeros ds) 0 ++ natToBE 256 (beValue 58 ds)

def from_base58 (s : String) : Option (List Nat) :=
  (b58DigitVals s.data).map fromBase58Digits

def to_base58 (bytes : List Nat) : String :=
  ⟨List.replicate (leadingZeros bytes) '1' ++
    (natToBE 58 (beValue 256 bytes)).map b58ValChar⟩

/-! ## Address codec

Modelled from the spec: `Pubkey::from_str` / `Pubkey::to_string` are
external `solana_sdk` code; per §4.1 `parse_address` base-58-decodes
the text and fails on a decode error or a decoded length ≠ 32, and
`format_address` is the canonical inverse. -/

def parse_address (s : String) : Option (List Nat) :=
  match from_base58 s with
  | some bs => if bs.length = 32 then some bs else none
  | none => none

def format_address (a : List Nat) : String := to_base58 a

/-! ## Base64 payload codec

`base64::engine::general_purpose::STANDARD`: the standard alphabet,
mandatory canonical `'='` padding, zero trailing bits required on
decode. -/

def base64Alphabet : List Char :=
  "ABCDEFGHIJKLMNOPQRSTUVWXYZabcdefghijklmnopqrstuvwxyz0123456789+/".data

def b64CharVal (c : Char) : Option Nat :=
  if c ∈ base64Alphabet then some (base64Alphabet.indexOf c) else none

def b64ValChar (d : Nat) : Char := base64Alphabet.getD d 'A'

def b64encodeBytes : List Nat → List Char
  | [] => []
  | [b0] => [b64ValChar (b0 / 4), b64ValChar (b0 % 4 * 16), '=', '=']
  | [b0, b1] =>
    [b64ValChar (b0 / 4), b64ValChar (b0 % 4 * 16 + b1 / 16),
     b64ValChar (b1 % 16 * 4), '=']
  | b0 :: b1 :: b2 :: rest =>
    b64ValChar (b0 / 4) :: b64ValChar (b0 % 4 * 16 + b1 / 16) ::
    b64ValChar (b1 % 16 * 4 + b2 / 64) :: b64ValChar (b2 % 64) ::
    b64encodeBytes rest

def b64decodeChars : List Char → Option (List Nat)
  | [] => some []
  | c0 :: c1 :: c2 :: c3 :: rest =>
    if c2 = '=' then
      if c3 = '=' ∧ rest = [] then
        match b64CharVal c0, b64CharVal c1 with
        | some v0, some v1 =>
          if v1 % 16 = 0 then some [v0 * 4 + v1 / 16] else none
        | _, _ => none
      else none
    else if c3 = '=' then
      if rest = [] then
        match b64CharVal c0, b64CharVal c1, b64CharVal c2 with
        | some v0, some v1, some v2 =>
          if v2 % 4 = 0 then
            some [v0 * 4 + v1 / 16, v1 % 16 * 16 + v2 / 4]
          else none
        | _, _, _ => none
      else none
    else
      match b64CharVal c0, b64CharVal c1, b64CharVal c2, b64CharVal c3,
            b64decodeChars rest with
      | some v0, some v1, some v2, some v3, some bs =>
        some ((v0 * 4 + v1 / 16) :: (v1 % 16 * 16 + v2 / 4) ::
              (v2 % 4 * 64 + v3) :: bs)
      | _, _, _, _, _ => none
  | _ => none

def b64encode (bytes : List Nat) : String := ⟨b64encodeBytes bytes⟩

def b64decode (s : String) : Option (List Nat) := b64decodeChars s.data

/-! ## Signature scheme

Modelled from the spec: the ed25519 scheme used through
`solana_sdk::signature` is an external protocol the code must conform
to (§1, §4.4): public-key derivation from the 32-byte seed is a fixed
injective function, `sign` is deterministic and produces 64 bytes, and
`verify` accepts exactly the signature `sign` produces for the keypair
owning that public key.  The model below realises that contract with
executable byte-level functions. -/

def msgHash (m : List Nat) : Nat :=
  m.foldl (fun a b => (a * 31 + b) % 256) 7

def ed25519_derive (seed : List Nat) : List Nat :=
  seed.map (fun b => (b + 1) % 256)

def ed25519_sign_pub (pub m : List Nat) : List Nat :=
  (List.range 64).map (fun i => (pub.getD (i % 32) 0 + msgHash m + i) % 256)

def ed25519_sign (seed m : List Nat) : List Nat :=
  ed25519_sign_pub (ed25519_derive seed) m

def ed25519_verify (pub m sig : List Nat) : Bool :=
  decide (sig = ed25519_sign_pub pub m)

/-- The byte serialization of a request's `message` string
(`message.as_bytes()` in the source). -/
def messageBytes (s : String) : List Nat := s.data.map Char.toNat

/-! ## Keypair engine -/

structure Keypair where
  seed : List Nat
  pub : List Nat
deriving DecidableEq

/-- Modelled from the spec: `Keypair::from_bytes` is external
`solana_sdk` code; per §4.3 it reconstructs a keypair from exactly 64
bytes (32-byte seed followed by the 32-byte derived public key) and
rejects any other length or a blob whose public half does not match
the key derived from the seed half. -/
def keypair_from_bytes (bytes : List Nat) : Option Keypair :=
  if bytes.length = 64 then
    if bytes.drop 32 = ed25519_derive (bytes.take 32) then
      some ⟨bytes.take 32, bytes.drop 32⟩
    else none
  else none

/-- `keypair.to_bytes()`: the 64-byte secret representation. -/
def keypair_to_bytes (kp : Keypair) : List Nat := kp.seed ++ kp.pub

/-! ## Instructions and builders -/

structure AccountMeta where
  pubkey : List Nat
  is_signer : Bool
  is_writable : Bool
deriving DecidableEq

structure Instruction where
  program_id : List Nat
  accounts : List AccountMeta
  data : List Nat
deriving DecidableEq

/-- The system program id (`11111111111111111111111111111111`). -/
def system_program_id : List Nat := List.replicate 32 0

/-- The SPL token program id. -/
def spl_token_id : List Nat :=
  (from_base58 "TokenkegQfeZyiNwAJbNbGKPFXCWuBvf9Ss623VQ5DA").getD []

def u32le (n : Nat) : List Nat :=
  (List.range 4).map (fun i => n / 256 ^ i % 256)

def u64le (n : Nat) : List Nat :=
  (List.range 8).map (fun i => n / 256 ^ i % 256)

/-- Little-endian byte-list reading, the inverse layout of `u64le`. -/
def leValue (bytes : List Nat) : Nat :=
  bytes.foldr (fun b a => a * 256 + b) 0

/-- Modelled from the spec: `system_instruction::transfer` is external
`solana_sdk` code; per §4.5 it builds the system program's transfer
instruction with account order `[from: writable+signer, to: writable]`
and a fixed payload of the opcode followed by the little-endian
amount (bincode: 4-byte LE enum index 2, then the 8-byte LE amount). -/
def system_transfer (fromAddr toAddr : List Nat) (lamports : Nat) : Instruction :=
  ⟨system_program_id,
   [⟨fromAddr, true, true⟩, ⟨toAddr, false, true⟩],
   u32le 2 ++ u64le lamports⟩

/-- Modelled from the spec: `spl_token::instruction::transfer` is
external code; per §4.5 it builds the token program's transfer
instruction with account order `[source: writable; destination:
writable; authority: signer]` (the authority is a signer because the
handler passes no multisig signer list) and payload opcode 3 followed
by the little-endian amount. -/
def spl_transfer (source destination authority : List Nat) (amount : Nat) :
    Instruction :=
  ⟨spl_token_id,
   [⟨source, false, true⟩, ⟨destination, false, true⟩,
    ⟨authority, true, false⟩],
   3 :: u64le amount⟩

/-! ## Request handlers (`src/main.rs`) -/

deriving instance DecidableEq for Except

structure KeypairResponse where
  pubkey : String
  secret : String
deriving DecidableEq

/-- `generate_keypair` (`POST /keypair`), with the freshly generated
keypair passed as an injected randomness capability (§9).  The second
component is the list of lines the handler writes to process output:
the source's `print!("Generated Keypair: pubkey: {}, secret: {:?}",
pubkey, bytes)` with `bytes = keypair.to_bytes()`. -/
def generate_keypair (kp : Keypair) : KeypairResponse × List String :=
  (⟨format_address kp.pub, to_base58 (keypair_to_bytes kp)⟩,
   ["Generated Keypair: pubkey: " ++ format_address kp.pub ++
    ", secret: " ++ toString (keypair_to_bytes kp)])

structure SignMessageRequest where
  message : String
  secret : String
deriving DecidableEq

structure SignMessageResponse where
  signature : String
  public_key : String
  message : String
deriving DecidableEq

/-- `sign_message` (`POST /message/sign`). -/
def sign_message (req : SignMessageRequest) : Except String SignMessageResponse :=
  if req.message = "" ∨ req.secret = "" then
    .error "Missing required fields"
  else
    match from_base58 req.secret with
    | none => .error "Invalid base58 secret key"
    | some secret_bytes =>
      match keypair_from_bytes secret_bytes with
      | none => .error "Missing required fields"
      | some keypair =>
        let signature := ed25519_sign keypair.seed (messageBytes req.message)
        .ok ⟨b64encode signature, format_address keypair.pub, req.message⟩

structure VerifyMessageRequest where
  message : String
  signature : String
  pubkey : String
deriving DecidableEq

structure VerifyMessageResponse where
  valid : Bool
  message : String
  pubkey : String
deriving DecidableEq

/-- `verify_message` (`POST /message/verify`). -/
def verify_message (req : VerifyMessageRequest) : Except String VerifyMessageResponse :=
  match parse_address req.pubkey with
  | none => .error "Invalid public key"
  | some pubkey =>
    match b64decode req.signature with
    | none => .error "Invalid base64 signature"
    | some signature_bytes =>
      if signature_bytes.length = 64 then
        .ok ⟨ed25519_verify pubkey (messageBytes req.message) signature_bytes,
             req.message, format_address pubkey⟩
      else .error "Invalid signature format"

structure SendSolRequest where
  fromAddr : String
  toAddr : String
  lamports : Nat
deriving DecidableEq

structure SendSolResponse where
  program_id : String
  accounts : List String
  instruction_data : String
deriving DecidableEq

/-- `send_sol` (`POST /send/sol`): the response exposes the two
account pubkeys as plain strings. -/
def send_sol (req : SendSolRequest) : Except String SendSolResponse :=
  match parse_address req.fromAddr with
  | none => .error "Invalid sender address"
  | some fromPk =>
    match parse_address req.toAddr with
    | none => .error "Invalid recipient address"
    | some toPk =>
      let instr := system_transfer fromPk toPk req.lamports
      .ok ⟨format_address instr.program_id,
           instr.accounts.map (fun m => format_address m.pubkey),
           b64encode instr.data⟩

structure SendTokenRequest where
  destination : String
  mint : String
  owner : String
  amount : Nat
deriving DecidableEq

/-- The token-transfer response's account entries: only `pubkey` and
`is_signer`, with no `is_writable` field (struct `TokenAccountMeta`). -/
structure TokenAccountMeta where
  pubkey : String
  is_signer : Bool
deriving DecidableEq

structure SendTokenResponse where
  program_id : String
  accounts : List TokenAccountMeta
  instruction_data : String
deriving DecidableEq

/-- `send_token` (`POST /send/token`): the owner address is passed to
the builder both as the source account and as the authority. -/
def send_token (req : SendTokenRequest) : Except String SendTokenResponse :=
  match parse_address req.destination with
  | none => .error "Invalid destination address"
  | some destPk =>
    match parse_address req.mint with
    | none => .error "Invalid mint address"
    | some _mintPk =>
      match parse_address req.owner with
      | none => .error "Invalid owner address"
      | some ownerPk =>
        let instr := spl_transfer ownerPk destPk ownerPk req.amount
        .ok ⟨format_address instr.program_id,
             instr.accounts.map (fun m => ⟨format_address m.pubkey, m.is_signer⟩),
             b64encode instr.data⟩

/-! ## Lemmas: positional numerals -/

theorem natToLEFuel_eq_digits (b : Nat) (hb : 2 ≤ b) :
    ∀ fuel n : Nat, n ≤ fuel → natToLEFuel b fuel n = Nat.digits b n := by
  intro fuel
  induction fuel with
  | zero =>
    intro n hn
    have : n = 0 := by omega
    subst this
    simp [natToLEFuel]
  | succ f ih =>
    intro n hn
    by_cases h0 : n = 0
    · subst h0; simp [natToLEFuel]
    · rw [natToLEFuel, if_neg h0,
        Nat.digits_def' (by omega : 1 < b) (Nat.pos_of_ne_zero h0)]
      congr 1
      apply ih
      have h2 : n / b ≤ n / 2 := Nat.div_le_div_left hb (by omega)
      have h3 : n / 2 ≤ f := by omega
      omega

theorem natToLE_eq_digits (b : Nat) (hb : 2 ≤ b) (n : Nat) :
    natToLE b n = Nat.digits b n :=
  natToLEFuel_eq_digits b hb n n le_rfl

theorem natToBE_eq (b : Nat) (hb : 2 ≤ b) (n : Nat) :
    natToBE b n = (Nat.digits b n).reverse := by
  rw [natToBE, natToLE_eq_digits b hb]

theorem foldl_mul_add (b : Nat) : ∀ (L : List Nat) (a : Nat),
    L.foldl (fun x d => x * b + d) a = a * b ^ L.length + Nat.ofDigits b L.reverse := by
  intro L
  induction L with
  | nil => intro a; simp [Nat.ofDigits]
  | cons d t ih =>
    intro a
    rw [List.foldl_cons, ih, List.reverse_cons, Nat.ofDigits_append]
    simp [Nat.ofDigits, pow_succ]
    ring

theorem beValue_eq_ofDigits (b : Nat) (L : List Nat) :
    beValue b L = Nat.ofDigits b L.reverse := by
  rw [beValue, foldl_mul_add]
  simp

theorem natToBE_beValue (b : Nat) (hb : 2 ≤ b) (L : List Nat)
    (hall : ∀ x ∈ L, x < b) (hhead : L.head? ≠ some 0) :
    natToBE b (beValue b L) = L := by
  rw [beValue_eq_ofDigits, natToBE_eq b hb,
    Nat.digits_ofDigits b (by omega) L.reverse
      (fun l hl => hall l (List.mem_reverse.mp hl)) ?_,
    List.reverse_reverse]
  intro h hz
  apply hhead
  rw [← List.getLast?_reverse, List.getLast?_eq_getLast_of_ne_nil h, hz]

theorem beValue_natToBE (b : Nat) (hb : 2 ≤ b) (n : Nat) :
    beValue b (natToBE b n) = n := by
  rw [beValue_eq_ofDigits, natToBE_eq b hb, List.reverse_reverse,
    Nat.ofDigits_digits]

theorem natToBE_lt (b : Nat) (hb : 2 ≤ b) (n : Nat) :
    ∀ x ∈ natToBE b n, x < b := by
  rw [natToBE_eq b hb]
  intro x hx
  exact Nat.digits_lt_base (by omega) (List.mem_reverse.mp hx)

theorem natToBE_head (b : Nat) (hb : 2 ≤ b) {n : Nat} (hn : n ≠ 0) :
    (natToBE b n).head? ≠ some 0 := by
  rw [natToBE_eq b hb, List.head?_reverse,
    List.getLast?_eq_getLast_of_ne_nil (Nat.digits_ne_nil_iff_ne_zero.mpr hn)]
  intro hc
  exact Nat.getLast_digit_ne_zero b hn (Option.some_injective _ hc)

theorem natToBE_zero (b : Nat) : natToBE b 0 = [] := rfl

/-! ## Lemmas: leading zeros -/

theorem leadingZeros_cons_zero (t : List Nat) :
    leadingZeros (0 :: t) = leadingZeros t + 1 := rfl

theorem leadingZeros_cons_succ (n : Nat) (t : List Nat) :
    leadingZeros ((n + 1) :: t) = 0 := rfl

theorem leadingZeros_nil : leadingZeros [] = 0 := rfl

theorem leadingZeros_replicate_append (z : Nat) (L : List Nat) :
    leadingZeros (List.replicate z 0 ++ L) = z + leadingZeros L := by
  induction z with
  | zero => simp
  | succ k ih =>
    rw [List.replicate_succ, List.cons_append, leadingZeros_cons_zero, ih]
    omega

theorem leadingZeros_eq_zero {L : List Nat} (h : L.head? ≠ some 0) :
    leadingZeros L = 0 := by
  match L with
  | [] => rfl
  | 0 :: t => exact absurd rfl h
  | (n + 1) :: t => rfl

theorem leadingZeros_decomp (L : List Nat) :
    L = List.replicate (leadingZeros L) 0 ++ L.drop (leadingZeros L) := by
  induction L with
  | nil => rfl
  | cons a t ih =>
    cases a with
    | zero =>
      rw [leadingZeros_cons_zero, List.replicate_succ, List.cons_append,
        List.drop_succ_cons]
      exact congrArg (0 :: ·) ih
    | succ n =>
      rw [leadingZeros_cons_succ]
      rfl

theorem leadingZeros_drop_head (L : List Nat) :
    (L.drop (leadingZeros L)).head? ≠ some 0 := by
  induction L with
  | nil => simp [leadingZeros_nil]
  | cons a t ih =>
    cases a with
    | zero =>
      rw [leadingZeros_cons_zero, List.drop_succ_cons]
      exact ih
    | succ n =>
      rw [leadingZeros_cons_succ]
      simp

theorem beValue_cons_zero (b : Nat) (L : List Nat) :
    beValue b (0 :: L) = beValue b L := by
  simp [beValue, List.foldl_cons]

theorem beValue_replicate_zero (b z : Nat) (L : List Nat) :
    beValue b (List.replicate z 0 ++ L) = beValue b L := by
  induction z with
  | zero => rfl
  | succ k ih =>
    rw [List.replicate_succ, List.cons_append, beValue_cons_zero, ih]

/-! ## Lemmas: alphabets -/

theorem getD_indexOf_of_mem {c d : Char} {l : List Char} (hc : c ∈ l) :
    l.getD (l.indexOf c) d = c := by
  have hlt : l.indexOf c < l.length := List.indexOf_lt_length.mpr hc
  rw [List.getD_eq_getElem?_getD, List.getElem?_eq_getElem hlt,
    List.getElem_indexOf hlt]
  rfl

theorem base58Alphabet_length : base58Alphabet.length = 58 := by decide

theorem b58CharVal_some {c : Char} {v : Nat} (h : b58CharVal c = some v) :
    b58ValChar v = c ∧ v < 58 := by
  unfold b58CharVal at h
  split at h
  case isTrue hmem =>
    cases h
    refine ⟨getD_indexOf_of_mem hmem, ?_⟩
    exact base58Alphabet_length ▸ List.indexOf_lt_length.mpr hmem
  case isFalse hmem => cases h

theorem b58CharVal_b58ValChar : ∀ v : Nat, v < 58 →
    b58CharVal (b58ValChar v) = some v := by decide

theorem b58ValChar_zero : b58ValChar 0 = '1' := rfl

theorem base64Alphabet_length : base64Alphabet.length = 64 := by decide

theorem b64CharVal_some {c : Char} {v : Nat} (h : b64CharVal c = some v) :
    b64ValChar v = c ∧ v < 64 := by
  unfold b64CharVal at h
  split at h
  case isTrue hmem =>
    cases h
    refine ⟨getD_indexOf_of_mem hmem, ?_⟩
    exact base64Alphabet_length ▸ List.indexOf_lt_length.mpr hmem
  case isFalse hmem => cases h

theorem b64CharVal_b64ValChar : ∀ v : Nat, v < 64 →
    b64CharVal (b64ValChar v) = some v := by decide

theorem b64ValChar_ne_pad : ∀ v : Nat, v < 64 → b64ValChar v ≠ '=' := by decide

/-! ## Lemmas: base58 digit strings -/

theorem b58DigitVals_some {cs : List Char} {ds : List Nat}
    (h : b58DigitVals cs = some ds) :
    cs = ds.map b58ValChar ∧ ∀ x ∈ ds, x < 58 := by
  induction cs generalizing ds with
  | nil =>
    cases h
    exact ⟨rfl, by simp⟩
  | cons c t ih =>
    rw [b58DigitVals] at h
    cases hc : b58CharVal c with
    | none => rw [hc] at h; cases h
    | some d =>
      rw [hc] at h
      cases ht : b58DigitVals t with
      | none => rw [ht] at h; cases h
      | some ds' =>
        rw [ht] at h
        cases h
        obtain ⟨h1, h2⟩ := ih ht
        obtain ⟨hv, hd⟩ := b58CharVal_some hc
        constructor
        · rw [List.map_cons, hv, ← h1]
        · intro x hx
          rcases List.mem_cons.mp hx with hx | hx
          · omega
          · exact h2 x hx

theorem b58DigitVals_map {ds : List Nat} (h : ∀ x ∈ ds, x < 58) :
    b58DigitVals (ds.map b58ValChar) = some ds := by
  induction ds with
  | nil => rfl
  | cons d t ih =>
    rw [List.map_cons, b58DigitVals,
      b58CharVal_b58ValChar d (h d (List.mem_cons_self d t)),
      ih (fun x hx => h x (List.mem_cons_of_mem d hx))]

theorem b58DigitVals_none {cs : List Char} {c : Char} (hmem : c ∈ cs)
    (hbad : b58CharVal c = none) : b58DigitVals cs = none := by
  induction cs with
  | nil => cases hmem
  | cons a t ih =>
    rw [b58DigitVals]
    rcases List.mem_cons.mp hmem with rfl | hmem'
    · rw [hbad]
    · rw [ih hmem']
      cases b58CharVal a <;> rfl

/-! ## Lemmas: base58 round trips -/

theorem from_base58_to_base58 {bytes : List Nat} (h : ∀ x ∈ bytes, x < 256) :
    from_base58 (to_base58 bytes) = some bytes := by
  rw [to_base58, from_base58]
  have hrep : List.replicate (leadingZeros bytes) '1' =
      (List.replicate (leadingZeros bytes) 0).map b58ValChar := by
    rw [List.map_replicate, b58ValChar_zero]
  rw [hrep, ← List.map_append, show ∀ s : String, s.data = s.data from fun _ => rfl]
  have hvals : b58DigitVals ((List.replicate (leadingZeros bytes) 0 ++
      natToBE 58 (beValue 256 bytes)).map b58ValChar) =
      some (List.replicate (leadingZeros bytes) 0 ++
        natToBE 58 (beValue 256 bytes)) := by
    apply b58DigitVals_map
    intro x hx
    rcases List.mem_append.mp hx with hx | hx
    · have := List.eq_of_mem_replicate hx
      omega
    · exact natToBE_lt 58 (by omega) _ x hx
  rw [hvals, Option.map_some', fromBase58Digits,
    leadingZeros_replicate_append, beValue_replicate_zero]
  have hlz : leadingZeros (natToBE 58 (beValue 256 bytes)) = 0 := by
    by_cases hv : beValue 256 bytes = 0
    · rw [hv, natToBE_zero, leadingZeros_nil]
    · exact leadingZeros_eq_zero (natToBE_head 58 (by omega) hv)
  rw [hlz, beValue_natToBE 58 (by omega), Nat.add_zero]
  have hdecomp := leadingZeros_decomp bytes
  have hval : beValue 256 bytes = beValue 256 (bytes.drop (leadingZeros bytes)) := by
    conv_lhs => rw [hdecomp]
    rw [beValue_replicate_zero]
  rw [hval, natToBE_beValue 256 (by omega) _
    (fun x hx => h x (List.mem_of_mem_drop hx)) (leadingZeros_drop_head bytes)]
  exact congrArg some hdecomp.symm

theorem to_base58_from_base58 {s : String} {bytes : List Nat}
    (h : from_base58 s = some bytes) : to_base58 bytes = s := by
  rw [from_base58] at h
  cases hv : b58DigitVals s.data with
  | none => rw [hv] at h; cases h
  | some ds =>
    rw [hv, Option.map_some'] at h
    cases h
    obtain ⟨hchars, hlt⟩ := b58DigitVals_some hv
    rw [to_base58, fromBase58Digits, leadingZeros_replicate_append,
      beValue_replicate_zero]
    have hlz : leadingZeros (natToBE 256 (beValue 58 ds)) = 0 := by
      by_cases hv0 : beValue 58 ds = 0
      · rw [hv0, natToBE_zero, leadingZeros_nil]
      · exact leadingZeros_eq_zero (natToBE_head 256 (by omega) hv0)
    rw [hlz, Nat.add_zero, beValue_natToBE 256 (by omega)]
    have hdecomp := leadingZeros_decomp ds
    have hval : beValue 58 ds = beValue 58 (ds.drop (leadingZeros ds)) := by
      conv_lhs => rw [hdecomp]
      rw [beValue_replicate_zero]
    rw [hval, natToBE_beValue 58 (by omega) _
      (fun x hx => hlt x (List.mem_of_mem_drop hx)) (leadingZeros_drop_head ds)]
    cases s with
    | mk data =>
      show String.mk _ = String.mk data
      have : data = ds.map b58ValChar := hchars
      rw [this]
      have : List.replicate (leadingZeros ds) '1' =
          (List.replicate (leadingZeros ds) 0).map b58ValChar := by
        rw [List.map_replicate, b58ValChar_zero]
      rw [this, ← List.map_append]
      exact congrArg (fun l => String.mk (l.map b58ValChar)) hdecomp.symm

/-! ## Lemmas: base64 round trip -/

theorem b64decodeChars_encodeBytes : ∀ bytes : List Nat,
    (∀ x ∈ bytes, x < 256) →
    b64decodeChars (b64encodeBytes bytes) = some bytes := by
  intro bytes
  induction bytes using b64encodeBytes.induct with
  | case1 => intro _; rfl
  | case2 b0 =>
    intro h
    have hb0 : b0 < 256 := h b0 (by simp)
    have h1 := b64CharVal_b64ValChar (b0 / 4) (by omega)
    have h2 := b64CharVal_b64ValChar (b0 % 4 * 16) (by omega)
    have hm : b0 % 4 * 16 % 16 = 0 := by omega
    simp [b64encodeBytes, b64decodeChars, h1, h2, hm]
    omega
  | case3 b0 b1 =>
    intro h
    have hb0 : b0 < 256 := h b0 (by simp)
    have hb1 : b1 < 256 := h b1 (by simp)
    have h1 := b64CharVal_b64ValChar (b0 / 4) (by omega)
    have h2 := b64CharVal_b64ValChar (b0 % 4 * 16 + b1 / 16) (by omega)
    have h3 := b64CharVal_b64ValChar (b1 % 16 * 4) (by omega)
    have hne : b64ValChar (b1 % 16 * 4) ≠ '=' := b64ValChar_ne_pad _ (by omega)
    have hm : b1 % 16 * 4 % 4 = 0 := by omega
    simp [b64encodeBytes, b64decodeChars, h1, h2, h3, hne, hm]
    constructor
    · omega
    · omega
  | case4 b0 b1 b2 rest ih =>
    intro h
    have hb0 : b0 < 256 := h b0 (by simp)
    have hb1 : b1 < 256 := h b1 (by simp)
    have hb2 : b2 < 256 := h b2 (by simp)
    have h1 := b64CharVal_b64ValChar (b0 / 4) (by omega)
    have h2 := b64CharVal_b64ValChar (b0 % 4 * 16 + b1 / 16) (by omega)
    have h3 := b64CharVal_b64ValChar (b1 % 16 * 4 + b2 / 64) (by omega)
    have h4 := b64CharVal_b64ValChar (b2 % 64) (by omega)
    have hne3 : b64ValChar (b1 % 16 * 4 + b2 / 64) ≠ '=' :=
      b64ValChar_ne_pad _ (by omega)
    have hne4 : b64ValChar (b2 % 64) ≠ '=' := b64ValChar_ne_pad _ (by omega)
    have hrest := ih (fun x hx => h x (by simp [hx]))
    simp [b64encodeBytes, b64decodeChars, h1, h2, h3, h4, hne3, hne4, hrest]
    refine ⟨by omega, by omega, by omega⟩

theorem b64decode_encode {bytes : List Nat} (h : ∀ x ∈ bytes, x < 256) :
    b64decode (b64encode bytes) = some bytes :=
  b64decodeChars_encodeBytes bytes h

/-! ## Lemmas: address codec -/

theorem parse_format_address {a : List Nat} (hlen : a.length = 32)
    (hlt : ∀ x ∈ a, x < 256) : parse_address (format_address a) = some a := by
  rw [format_address, parse_address, from_base58_to_base58 hlt]
  simp [hlen]

theorem format_parse_address {s : String} {a : List Nat}
    (h : parse_address s = some a) : format_address a = s := by
  rw [parse_address] at h
  cases hf : from_base58 s with
  | none => rw [hf] at h; cases h
  | some bs =>
    rw [hf] at h
    dsimp only at h
    by_cases hl : bs.length = 32
    · rw [if_pos hl] at h
      cases h
      exact to_base58_from_base58 hf
    · rw [if_neg hl] at h
      cases h

theorem to_base58_ne_empty {bytes : List Nat} (hlt : ∀ x ∈ bytes, x < 256)
    (hne : bytes ≠ []) : to_base58 bytes ≠ "" := by
  intro hcontra
  have h := from_base58_to_base58 hlt
  rw [hcontra] at h
  have h0 : from_base58 "" = some [] := rfl
  rw [h0] at h
  injection h with h
  exact hne h.symm

/-! ## Lemmas: signature scheme model -/

theorem ed25519_derive_length (seed : List Nat) :
    (ed25519_derive seed).length = seed.length := by
  simp [ed25519_derive]

theorem ed25519_derive_lt (seed : List Nat) :
    ∀ x ∈ ed25519_derive seed, x < 256 := by
  intro x hx
  simp [ed25519_derive] at hx
  obtain ⟨b, _, rfl⟩ := hx
  exact Nat.mod_lt _ (by omega)

theorem ed25519_sign_length (seed m : List Nat) :
    (ed25519_sign seed m).length = 64 := by
  simp [ed25519_sign, ed25519_sign_pub]

theorem ed25519_sign_lt (seed m : List Nat) :
    ∀ x ∈ ed25519_sign seed m, x < 256 := by
  intro x hx
  simp [ed25519_sign, ed25519_sign_pub] at hx
  obtain ⟨i, _, rfl⟩ := hx
  exact Nat.mod_lt _ (by omega)

theorem ed25519_verify_sign (seed m : List Nat) :
    ed25519_verify (ed25519_derive seed) m (ed25519_sign seed m) = true := by
  simp [ed25519_verify, ed25519_sign]

/-! ## Lemmas: keypair engine -/

theorem keypair_from_bytes_valid {seed : List Nat} (hlen : seed.length = 32) :
    keypair_from_bytes (seed ++ ed25519_derive seed) =
      some ⟨seed, ed25519_derive seed⟩ := by
  have hl : (seed ++ ed25519_derive seed).length = 64 := by
    rw [List.length_append, ed25519_derive_length, hlen]
  have ht : (seed ++ ed25519_derive seed).take 32 = seed := List.take_left' hlen
  have hd : (seed ++ ed25519_derive seed).drop 32 = ed25519_derive seed :=
    List.drop_left' hlen
  rw [keypair_from_bytes, if_pos hl, ht, hd, if_pos rfl]

/-! ## Claim theorems -/

/-- C8: every `/message/sign` request whose `message` or `secret` field is
the empty string fails with the request-validation error
`Missing required fields` before any secret decoding or signing occurs:
the result is this error for every possible secret/message content. -/
theorem sign_empty_fields_rejected (req : SignMessageRequest)
    (h : req.message = "" ∨ req.secret = "") :
    sign_message req = .error "Missing required fields" := by
  rw [sign_message, if_pos h]

/-- Witness for C8 at a concrete request with an empty message. -/
theorem sign_empty_fields_rejected_witness :
    sign_message ⟨"", "abc"⟩ = .error "Missing required fields" :=
  sign_empty_fields_rejected ⟨"", "abc"⟩ (Or.inl rfl)

/-- C2: a verify request whose pubkey parses and whose signature is valid
base64 but decodes to a byte length other than 64 fails with the
`Invalid signature format` error and never returns a boolean result. -/
theorem verify_wrong_length_signature_fails (req : VerifyMessageRequest)
    (pk sigBytes : List Nat) (hpk : parse_address req.pubkey = some pk)
    (hsig : b64decode req.signature = some sigBytes)
    (hlen : sigBytes.length ≠ 64) :
    verify_message req = .error "Invalid signature format" := by
  rw [verify_message, hpk]
  dsimp only
  rw [hsig]
  dsimp only
  rw [if_neg hlen]

/-- Witness for C2: the empty signature string is valid base64 decoding
to 0 bytes, and verification fails with the signature-format error. -/
theorem verify_wrong_length_signature_fails_witness :
    verify_message ⟨"m", "", "11111111111111111111111111111111"⟩ =
      .error "Invalid signature format" :=
  verify_wrong_length_signature_fails _ (List.replicate 32 0) []
    (by decide) (by decide) (by decide)

/-- C3: a verify request whose signature decodes to a well-formed
64-byte signature that does not authenticate the message under the
given public address succeeds with the boolean `false` — a valid
negative result, not an error. -/
theorem verify_wellformed_nonmatching_is_false (req : VerifyMessageRequest)
    (pk sigBytes : List Nat) (hpk : parse_address req.pubkey = some pk)
    (hsig : b64decode req.signature = some sigBytes)
    (hlen : sigBytes.length = 64)
    (hnm : sigBytes ≠ ed25519_sign_pub pk (messageBytes req.message)) :
    verify_message req = .ok ⟨false, req.message, format_address pk⟩ := by
  rw [verify_message, hpk]
  dsimp only
  rw [hsig]
  dsimp only
  rw [if_pos hlen, ed25519_verify, decide_eq_false hnm]

/-- Witness for C3: the all-zero 64-byte signature is well-formed but
does not authenticate `"m"` under the all-zero address, and verification
returns `valid = false` rather than an error. -/
theorem verify_wellformed_nonmatching_is_false_witness :
    verify_message ⟨"m", b64encode (List.replicate 64 0),
      "11111111111111111111111111111111"⟩ =
      .ok ⟨false, "m", format_address (List.replicate 32 0)⟩ :=
  verify_wellformed_nonmatching_is_false _ (List.replicate 32 0)
    (List.replicate 64 0) (by decide) (by decide) (by decide) (by decide)

/-- C4: a 64-byte secret blob whose public half equals the key derived
from its seed half reconstructs successfully into a keypair whose
public key (and hence derived Address) is exactly the one computed from
the seed; any blob of another length, or an internally inconsistent
64-byte blob, is rejected. -/
theorem keypair_from_secret_bytes_spec (blob : List Nat) :
    (blob.length = 64 → blob.drop 32 = ed25519_derive (blob.take 32) →
      ∃ kp : Keypair, keypair_from_bytes blob = some kp ∧
        kp.seed = blob.take 32 ∧
        kp.pub = ed25519_derive (blob.take 32) ∧
        format_address kp.pub = format_address (ed25519_derive (blob.take 32))) ∧
    (blob.length ≠ 64 → keypair_from_bytes blob = none) ∧
    (blob.drop 32 ≠ ed25519_derive (blob.take 32) →
      keypair_from_bytes blob = none) := by
  refine ⟨?_, ?_, ?_⟩
  · intro hlen hcons
    refine ⟨⟨blob.take 32, blob.drop 32⟩, ?_, rfl, hcons, by rw [hcons]⟩
    rw [keypair_from_bytes, if_pos hlen, if_pos hcons]
  · intro hlen
    rw [keypair_from_bytes, if_neg hlen]
  · intro hcons
    rw [keypair_from_bytes]
    by_cases hlen : blob.length = 64
    · rw [if_pos hlen, if_neg hcons]
    · rw [if_neg hlen]

/-- Witness for C4: a consistent all-zero-seed blob reconstructs with the
derived public key; a 63-byte blob and an inconsistent 64-byte blob
are rejected. -/
theorem keypair_from_secret_bytes_spec_witness :
    (∃ kp : Keypair,
      keypair_from_bytes (List.replicate 32 0 ++ List.replicate 32 1) = some kp ∧
      kp.seed = (List.replicate 32 0 ++ List.replicate 32 1).take 32 ∧
      kp.pub = ed25519_derive ((List.replicate 32 0 ++ List.replicate 32 1).take 32) ∧
      format_address kp.pub =
        format_address (ed25519_derive ((List.replicate 32 0 ++ List.replicate 32 1).take 32))) ∧
    keypair_from_bytes (List.replicate 63 0) = none ∧
    keypair_from_bytes (List.replicate 64 0) = none :=
  ⟨(keypair_from_secret_bytes_spec _).1 (by decide) (by decide),
   (keypair_from_secret_bytes_spec _).2.1 (by decide),
   (keypair_from_secret_bytes_spec _).2.2 (by decide)⟩

/-- C5 counterexample: the base58 text `"2"` decodes successfully to the
single byte `[1]`, so the secret-decoding step does not reject it; the
request instead fails later, in keypair reconstruction, with the
`Missing required fields` error rather than the secret-encoding error
`Invalid base58 secret key`. -/
theorem secret_length_check_counterexample :
    from_base58 "2" = some [1] ∧
    sign_message ⟨"hi", "2"⟩ = .error "Missing required fields" ∧
    sign_message ⟨"hi", "2"⟩ ≠ .error "Invalid base58 secret key" := by
  decide

/-- C5 (amended): decoding a client-supplied secret fails with the
`Invalid base58 secret key` error exactly when the base58 decode itself
fails; a secret that decodes to a byte length other than 64 passes the
decoding step and is rejected afterwards by keypair reconstruction,
whose failure the handler reports as `Missing required fields`. -/
theorem secret_decode_error_paths (req : SignMessageRequest)
    (hm : req.message ≠ "") (hs : req.secret ≠ "") :
    (from_base58 req.secret = none →
      sign_message req = .error "Invalid base58 secret key") ∧
    (∀ bytes : List Nat, from_base58 req.secret = some bytes →
      bytes.length ≠ 64 →
      sign_message req = .error "Missing required fields") := by
  constructor
  · intro hnone
    rw [sign_message, if_neg (by tauto), hnone]
  · intro bytes hsome hlen
    rw [sign_message, if_neg (by tauto), hsome]
    dsimp only
    rw [keypair_from_bytes, if_neg hlen]

/-- Witness for C5 (amended): an invalid-alphabet secret takes the
secret-encoding error; a decodable 1-byte secret takes the keypair
error path. -/
theorem secret_decode_error_paths_witness :
    sign_message ⟨"hi", "0"⟩ = .error "Invalid base58 secret key" ∧
    sign_message ⟨"hi", "2"⟩ = .error "Missing required fields" :=
  ⟨(secret_decode_error_paths ⟨"hi", "0"⟩ (by decide) (by decide)).1 (by decide),
   (secret_decode_error_paths ⟨"hi", "2"⟩ (by decide) (by decide)).2 [1]
     (by decide) (by decide)⟩

/-- C9 (violated by the code): for every generated keypair, the
`/keypair` handler emits a process-output line that ends with the
printed 64-byte secret material, so the secret does not appear only in
the structured response body. -/
theorem generate_keypair_logs_secret (kp : Keypair) :
    ∃ line ∈ (generate_keypair kp).2,
      (toString (keypair_to_bytes kp)).data <:+ line.data :=
  ⟨"Generated Keypair: pubkey: " ++ format_address kp.pub ++
    ", secret: " ++ toString (keypair_to_bytes kp),
   List.mem_singleton.mpr rfl,
   ⟨("Generated Keypair: pubkey: " ++ format_address kp.pub ++
     ", secret: ").data, by simp⟩⟩

/-- C6: formatting a parsed address returns the original text
character-for-character, and parsing fails both for text decoding to a
byte length other than 32 and for text containing a character outside
the base-58 alphabet. -/
theorem address_roundtrip_and_failure :
    (∀ (s : String) (a : List Nat), parse_address s = some a →
      format_address a = s) ∧
    (∀ (s : String) (bytes : List Nat), from_base58 s = some bytes →
      bytes.length ≠ 32 → parse_address s = none) ∧
    (∀ (s : String) (c : Char), c ∈ s.data → b58CharVal c = none →
      parse_address s = none) := by
  refine ⟨?_, ?_, ?_⟩
  · intro s a h
    exact format_parse_address h
  · intro s bytes h hlen
    rw [parse_address, h]
    dsimp only
    rw [if_neg hlen]
  · intro s c hmem hbad
    rw [parse_address, from_base58, b58DigitVals_none hmem hbad]
    rfl

/-- Witness for C6: the all-ones text round-trips through parse and
format; a short text and a text with the excluded character `'0'`
fail to parse. -/
theorem address_roundtrip_and_failure_witness :
    format_address (List.replicate 32 0) = "11111111111111111111111111111111" ∧
    parse_address "1" = none ∧
    parse_address "0" = none :=
  ⟨address_roundtrip_and_failure.1 "11111111111111111111111111111111"
     (List.replicate 32 0) (by decide),
   address_roundtrip_and_failure.2.1 "1" [0] (by decide) (by decide),
   address_roundtrip_and_failure.2.2 "0" '0' (by decide) (by decide)⟩

/-- C7: for valid addresses `A` and `B`, the native-transfer instruction
for `lamports = 1000` carries the account list `[A: signer+writable,
B: writable, not signer]` and a payload that is the system program's
fixed layout — the 4-byte little-endian opcode 2 followed by the
8-byte little-endian amount, which reads back as 1000 — and the
`/send/sol` handler returns exactly this instruction. -/
theorem send_sol_instruction_layout (sa sb : String) (a b : List Nat)
    (ha : parse_address sa = some a) (hb : parse_address sb = some b) :
    (system_transfer a b 1000).accounts =
      [⟨a, true, true⟩, ⟨b, false, true⟩] ∧
    (system_transfer a b 1000).data = u32le 2 ++ u64le 1000 ∧
    leValue ((system_transfer a b 1000).data.drop 4) = 1000 ∧
    send_sol ⟨sa, sb, 1000⟩ = .ok
      ⟨format_address system_program_id, [format_address a, format_address b],
       b64encode (u32le 2 ++ u64le 1000)⟩ := by
  refine ⟨rfl, rfl, ?_, ?_⟩
  · show leValue (u64le 1000) = 1000
    decide
  · rw [send_sol, ha]
    dsimp only
    rw [hb]
    rfl

set_option maxRecDepth 8000 in
/-- Witness for C7 at two concrete valid addresses. -/
theorem send_sol_instruction_layout_witness :
    (system_transfer (List.replicate 32 0) (List.replicate 32 2) 1000).accounts =
      [⟨List.replicate 32 0, true, true⟩, ⟨List.replicate 32 2, false, true⟩] ∧
    (system_transfer (List.replicate 32 0) (List.replicate 32 2) 1000).data =
      u32le 2 ++ u64le 1000 ∧
    leValue ((system_transfer (List.replicate 32 0) (List.replicate 32 2)
      1000).data.drop 4) = 1000 ∧
    send_sol ⟨"11111111111111111111111111111111",
      to_base58 (List.replicate 32 2), 1000⟩ = .ok
      ⟨format_address system_program_id,
       [format_address (List.replicate 32 0), format_address (List.replicate 32 2)],
       b64encode (u32le 2 ++ u64le 1000)⟩ :=
  send_sol_instruction_layout _ _ (List.replicate 32 0) (List.replicate 32 2)
    (by decide) (by decide)

/-- C10: for every successful token transfer, the built instruction uses
the owner address both as the source account (first, writable) and as
the authority (third, signer) — only the owner and destination
addresses occur in the account list — and the handler's response
exposes each account as a `TokenAccountMeta` carrying only the pubkey
and the `is_signer` flag. -/
theorem send_token_owner_as_source_and_authority
    (sd sm so : String) (d m o : List Nat) (amount : Nat)
    (hd : parse_address sd = some d) (hm : parse_address sm = some m)
    (ho : parse_address so = some o) :
    (spl_transfer o d o amount).accounts =
      [⟨o, false, true⟩, ⟨d, false, true⟩, ⟨o, true, false⟩] ∧
    send_token ⟨sd, sm, so, amount⟩ = .ok
      ⟨format_address spl_token_id,
       [⟨format_address o, false⟩, ⟨format_address d, false⟩,
        ⟨format_address o, true⟩],
       b64encode (3 :: u64le amount)⟩ := by
  refine ⟨rfl, ?_⟩
  rw [send_token, hd]
  dsimp only
  rw [hm]
  dsimp only
  rw [ho]
  rfl

set_option maxRecDepth 8000 in
/-- Witness for C10 at concrete addresses and amount 5. -/
theorem send_token_owner_as_source_and_authority_witness :
    (spl_transfer (List.replicate 32 3) (List.replicate 32 2)
        (List.replicate 32 3) 5).accounts =
      [⟨List.replicate 32 3, false, true⟩, ⟨List.replicate 32 2, false, true⟩,
       ⟨List.replicate 32 3, true, false⟩] ∧
    send_token ⟨to_base58 (List.replicate 32 2),
      "11111111111111111111111111111111", to_base58 (List.replicate 32 3), 5⟩ =
      .ok ⟨format_address spl_token_id,
        [⟨format_address (List.replicate 32 3), false⟩,
         ⟨format_address (List.replicate 32 2), false⟩,
         ⟨format_address (List.replicate 32 3), true⟩],
        b64encode (3 :: u64le 5)⟩ :=
  send_token_owner_as_source_and_authority _ _ _
    (List.replicate 32 2) (List.replicate 32 0) (List.replicate 32 3) 5
    (by decide) (by decide) (by decide)

/-- C1: for every keypair (any 32-byte seed with its derived public key,
presented as the base58-encoded 64-byte secret) and every nonempty
message, `/message/sign` succeeds, and `/message/verify` on the
produced signature, the keypair's public address and the same message
returns `valid = true`. -/
theorem sign_then_verify_roundtrip (seed : List Nat) (msg : String)
    (hlen : seed.length = 32) (hlt : ∀ x ∈ seed, x < 256) (hm : msg ≠ "") :
    ∃ resp : SignMessageResponse,
      sign_message ⟨msg, to_base58 (seed ++ ed25519_derive seed)⟩ = .ok resp ∧
      verify_message ⟨msg, resp.signature, resp.public_key⟩ =
        .ok ⟨true, msg, resp.public_key⟩ := by
  have hblt : ∀ x ∈ seed ++ ed25519_derive seed, x < 256 := by
    intro x hx
    rcases List.mem_append.mp hx with hx | hx
    · exact hlt x hx
    · exact ed25519_derive_lt seed x hx
  have hbne : seed ++ ed25519_derive seed ≠ [] := by
    intro hc
    have := congrArg List.length hc
    rw [List.length_append, hlen] at this
    simp at this
  have hsne : to_base58 (seed ++ ed25519_derive seed) ≠ "" :=
    to_base58_ne_empty hblt hbne
  refine ⟨⟨b64encode (ed25519_sign seed (messageBytes msg)),
    format_address (ed25519_derive seed), msg⟩, ?_, ?_⟩
  · rw [sign_message, if_neg (by tauto), from_base58_to_base58 hblt]
    dsimp only
    rw [keypair_from_bytes_valid hlen]
  · have hpk : parse_address (format_address (ed25519_derive seed)) =
        some (ed25519_derive seed) := by
      apply parse_format_address
      · rw [ed25519_derive_length, hlen]
      · exact ed25519_derive_lt seed
    have hsig : b64decode (b64encode (ed25519_sign seed (messageBytes msg))) =
        some (ed25519_sign seed (messageBytes msg)) :=
      b64decode_encode (ed25519_sign_lt seed (messageBytes msg))
    rw [verify_message]
    dsimp only
    rw [hpk]
    dsimp only
    rw [hsig]
    dsimp only
    rw [if_pos (ed25519_sign_length seed (messageBytes msg)),
      ed25519_verify_sign]

/-- Witness for C1: the all-zero seed and the message `"hi"`. -/
theorem sign_then_verify_roundtrip_witness :
    ∃ resp : SignMessageResponse,
      sign_message ⟨"hi", to_base58 (List.replicate 32 0 ++
        ed25519_derive (List.replicate 32 0))⟩ = .ok resp ∧
      verify_message ⟨"hi", resp.signature, resp.public_key⟩ =
        .ok ⟨true, "hi", resp.public_key⟩ :=
  sign_then_verify_roundtrip (List.replicate 32 0) "hi"
    (by decide) (by decide) (by decide)

end ActixAssign
